import Mathlib

/-!
# Verification of the widdly tiddler-store core

A shallow embedding of the widdly personal-wiki storage core:
the document model (`store` package: `Tiddler`, `NewTiddler`,
`MarshalJSON`, `GetRevision`, backend registry), and the three
storage backends (bolt, flatFile, sqlite) with their revision and
history-retention logic.

JSON byte strings are modelled by an inductive `Json` value type
plus a `Bytes` type that distinguishes parseable serialized JSON
from unparseable raw bytes; Go's `encoding/json` marshal/unmarshal
pair (an external library, not part of this repository) is
abstracted by the invertible correspondence `Bytes.json`.
Go maps (`map[string]interface{}`) are modelled as association
lists with unique keys, with lookup/set/erase operations.
-/

namespace Widdly

/-- A JSON value: the subset of Go's `interface{}` JSON universe the
program manipulates (strings, numbers, booleans, null, objects).
Object fields are an association list, modelling `map[string]interface{}`. -/
inductive Json where
  | str (s : String)
  | num (n : Int)
  | boolean (b : Bool)
  | null
  | obj (fields : List (String × Json))
deriving Repr

/-- A Go `[]byte` value as seen by `encoding/json`: either the
serialization of a JSON value (the output of `json.Marshal`, or any
input on which `json.Unmarshal` succeeds), or raw unparseable bytes. -/
inductive Bytes where
  | json (j : Json)
  | raw (s : String)
deriving Repr

/-- A JSON object body: `map[string]interface{}` in Go. -/
abbrev JsMap := List (String × Json)

/-- Go map lookup `m[k]` (with `ok` as `isSome`). -/
def alook {α : Type} : List (String × α) → String → Option α
  | [], _ => none
  | (k, v) :: rest, key => if k = key then some v else alook rest key

/-- Go map assignment `m[k] = v` (keys are unique; replace or append). -/
def aset {α : Type} : List (String × α) → String → α → List (String × α)
  | [], key, v => [(key, v)]
  | (k, w) :: rest, key, v =>
      if k = key then (key, v) :: rest else (k, w) :: aset rest key v

/-- Go `delete(m, k)`. -/
def aerase {α : Type} : List (String × α) → String → List (String × α)
  | [], _ => []
  | (k, v) :: rest, key =>
      if k = key then aerase rest key else (k, v) :: aerase rest key

theorem alook_aset_self {α : Type} (l : List (String × α)) (k : String) (v : α) :
    alook (aset l k v) k = some v := by
  induction l with
  | nil => simp [aset, alook]
  | cons hd tl ih =>
    by_cases h : hd.1 = k
    · simp [aset, h, alook]
    · simp [aset, h, alook, ih]

theorem alook_aset_ne {α : Type} (l : List (String × α)) (k k2 : String) (v : α)
    (h : k ≠ k2) : alook (aset l k v) k2 = alook l k2 := by
  induction l with
  | nil => simp [aset, alook, h]
  | cons hd tl ih =>
    by_cases hh : hd.1 = k
    · simp [aset, hh, alook, h]
    · simp only [aset, hh, if_false, alook]
      by_cases hk : hd.1 = k2
      · simp [hk]
      · simp [hk, ih]

theorem alook_aerase_ne {α : Type} (l : List (String × α)) (k k2 : String)
    (h : k ≠ k2) : alook (aerase l k) k2 = alook l k2 := by
  induction l with
  | nil => simp [aerase]
  | cons hd tl ih =>
    by_cases hh : hd.1 = k
    · have hne : hd.1 ≠ k2 := by rw [hh]; exact h
      simp [aerase, hh, alook, hne, ih, h]
    · simp only [aerase, hh, if_false, alook]
      by_cases hk : hd.1 = k2
      · simp [hk]
      · simp [hk, ih]

/-- `json.Unmarshal(b, &js)` for `js : map[string]interface{}`:
succeeds exactly on serialized JSON objects. -/
def unmarshalObj : Bytes → Option JsMap
  | .json (.obj fs) => some fs
  | _ => none

/-- `json.Unmarshal(b, &meta)` for `var meta struct{ Revision int }`:
fails (`none`) on unparseable bytes, on non-object JSON, and when the
`revision` field is present with a non-integer value; when the object
parses and the field is absent, the struct keeps Go's zero value `0`.
(Go's field matching is case-insensitive; this code base only ever
writes the lowercase key `"revision"`, which is what is modelled.) -/
def unmarshalRevision : Bytes → Option Int
  | .json (.obj fs) =>
      match alook fs "revision" with
      | none => some 0
      | some (.num n) => some n
      | some _ => none
  | _ => none

/-- Errors of the program. `errNotFound`, `errDBExist`, `errDBNotExist` are
`store.ErrNotFound`, `store.ErrDBExist`, `store.ErrDBNotExist`;
`sqlErrNoRows` is `database/sql.ErrNoRows` (a distinct error value);
`badJson` stands for `encoding/json` unmarshal errors, `ioError` for
substrate I/O failures. -/
inductive Err where
  | errNotFound
  | errDBExist
  | errDBNotExist
  | sqlErrNoRows
  | badJson
  | ioError
deriving DecidableEq, Repr

/-- `store.Tiddler` (part_006). `Meta` is the raw stored metadata of a
skinny tiddler (`nil` = `none`); `Js` is the decoded field map of a fat
tiddler (`nil` Go map = `none`). -/
structure Tiddler where
  Meta : Option Bytes := none
  Key : String := ""
  IsDraft : Bool := false
  IsSys : Bool := false
  Js : Option JsMap := none
deriving Repr

/-- `store.NewTiddler(meta, text)` (part_006): with `text == nil` the
tiddler is skinny (keeps the raw meta bytes); otherwise the meta is
unmarshalled into `Js` and `Js["text"]` is set to the text. -/
def NewTiddler (meta : Bytes) (text : Option String) : Option Tiddler :=
  match text with
  | none => some { Meta := some meta }
  | some txt =>
      match unmarshalObj meta with
      | none => none
      | some fs => some { Js := some (aset fs "text" (.str txt)) }

/-- `Tiddler.MarshalJSON` (part_006): returns the stored meta bytes
unchanged when present, else marshals `Js` (Go marshals a nil map to
JSON `null`). -/
def Tiddler.MarshalJSON (t : Tiddler) : Bytes :=
  match t.Meta with
  | some m => m
  | none =>
      match t.Js with
      | some fs => .json (.obj fs)
      | none => .json .null

/-- `Tiddler.GetRevision` (part_006): unmarshal `t.Meta` into
`struct{ Revision int }`; on any unmarshal error return 1
(`json.Unmarshal(nil, ...)` is an error, hence `Meta = none` gives 1). -/
def Tiddler.GetRevision (t : Tiddler) : Int :=
  match t.Meta with
  | none => 1
  | some m =>
      match unmarshalRevision m with
      | some r => r
      | none => 1

/-- `text, _ := tiddler.Js["text"].(string)`: the string type assertion
yields `""` when the entry is absent or not a string. -/
def textOf (js : JsMap) : String :=
  match alook js "text" with
  | some (.str s) => s
  | _ => ""

/-- `tiddler.MarshalJSON()` as called inside the backends' `Put`, after
`tiddler.Js` has been updated to `js`: the `Meta` field of the tiddler
passed by the caller takes priority (it is `nil` on the api `Put` path). -/
def marshalled (t : Tiddler) (js : JsMap) : Bytes :=
  match t.Meta with
  | some m => m
  | none => .json (.obj js)

/-- Rendering stored bytes back as a Go string (`string(b)`); text values
written by this program are always `raw`, so the `json` case is never
exercised by the modelled code paths. -/
def Bytes.asString : Bytes → String
  | .raw s => s
  | .json _ => ""

/-- `store.NewTiddler`'s `(t, err)` pair as an `Except`. -/
def exceptOfNew (r : Option Tiddler) : Except Err Tiddler :=
  match r with
  | some t => .ok t
  | none => .error .badJson

/-! ## The bolt backend (src/store/bolt/bolt.go)

A BoltDB bucket is a string-keyed byte map; the `tiddler` bucket holds
`<key>|1` (meta) and `<key>|2` (text) entries, the `tiddler_history`
bucket holds `<key>#<revision>` entries. -/

/-- A BoltDB bucket: sorted string-keyed byte map, modelled as a
unique-key association list. -/
abbrev Bucket := List (String × Bytes)

/-- `boltStore`: the open handle plus its two buckets and `maxRev`. -/
structure BoltStore where
  maxRev : Int
  tiddler : Bucket
  history : Bucket
deriving Repr

/-- `getLastRevision` (bolt.go lines 137-144): returns the parsed
`Revision` of the stored meta, and 1 when the entry is absent or the
bytes fail to unmarshal. -/
def boltGetLastRevision (b : Bucket) (mkey : String) : Int :=
  match alook b mkey with
  | none => 1
  | some data =>
      match unmarshalRevision data with
      | some r => r
      | none => 1

/-- The characters after the last `'#'` of a key, if any
(`bytes.LastIndexByte(k, '#')`). -/
def afterLastHash : List Char → Option (List Char)
  | [] => none
  | c :: rest =>
      match afterLastHash rest with
      | some t => some t
      | none => if c = '#' then some rest else none

/-- Base-10 digit accumulation; `none` on any non-digit. -/
def digitsToNatAux : List Char → Nat → Option Nat
  | [], acc => some acc
  | c :: rest, acc =>
      if '0' ≤ c ∧ c ≤ '9' then
        digitsToNatAux rest (acc * 10 + (c.toNat - '0'.toNat))
      else none

/-- `strconv.ParseInt(s, 10, 64)` with the error discarded, as the
trim loop does (`krev64, _ := strconv.ParseInt(...)`): an optional
sign then base-10 digits; any syntax error yields the zero value 0. -/
def parseGoInt (cs : List Char) : Int :=
  match cs with
  | [] => 0
  | '-' :: rest =>
      match digitsToNatAux rest 0 with
      | some n => if rest = [] then 0 else -(n : Int)
      | none => 0
  | '+' :: rest =>
      match digitsToNatAux rest 0 with
      | some n => if rest = [] then 0 else (n : Int)
      | none => 0
  | _ =>
      match digitsToNatAux cs 0 with
      | some n => (n : Int)
      | none => 0

/-- The revision parsed from a `<key>#<revision>` history key:
`strconv.ParseInt` of the suffix after the last `'#'`, whose error is
ignored so that unparseable suffixes count as 0. (A key without `'#'`
never matches the trim prefix, which itself ends in `'#'`.) -/
def revOfHistKey (k : String) : Int :=
  match afterLastHash k.data with
  | none => 0
  | some cs => parseGoInt cs

/-- `boltStore.trimRevision` (bolt.go lines 147-166): delete every
history entry whose key starts with `key + "#"` and whose parsed
revision is `<= rev`. -/
def trimRevision (hist : Bucket) (key : String) (rev : Int) : Bucket :=
  let pre := key ++ "#"
  hist.filter (fun kv =>
    !(pre.data.isPrefixOf kv.1.data && decide (revOfHistKey kv.1 ≤ rev)))

/-- `boltStore.Put` (bolt.go lines 170-225) with the outcome of the
trim step injected: `trimmed` is the history bucket as the trim attempt
left it and `trimErr` its returned error, which the source discards
(`s.trimRevision(...)` on line 210 ignores the returned error).
The history data `tiddler.MarshalJSON()` is marshalled after
`tiddler.Js["revision"] = rev` and before `delete(tiddler.Js, "text")`,
so it carries both text and revision. -/
def boltPutGen (s : BoltStore) (t : Tiddler) (trimmed : Bucket)
    (_trimErr : Option Err) : Int × BoltStore :=
  let mkey := t.Key ++ "|1"
  let rev := boltGetLastRevision s.tiddler mkey + 1
  let js := aset (t.Js.getD []) "revision" (.num rev)
  let data := marshalled t js
  let text := textOf js
  let js2 := aerase js "text"
  let meta := Bytes.json (.obj js2)
  let tb := aset (aset s.tiddler mkey meta) (t.Key ++ "|2") (.raw text)
  let hist :=
    if s.maxRev ≠ 0 ∧ t.IsDraft = false ∧ t.IsSys = false then
      let h1 := if s.maxRev > 0 ∧ rev - s.maxRev > 1 then trimmed else s.history
      aset h1 (t.Key ++ "#" ++ toString rev) data
    else s.history
  (rev, { s with tiddler := tb, history := hist })

/-- `boltStore.Put` proper: the trim outcome is the one `trimRevision`
actually computes (`rev - 1 - s.maxRev` as the threshold). -/
def boltPut (s : BoltStore) (t : Tiddler) : Int × BoltStore :=
  let rev := boltGetLastRevision s.tiddler (t.Key ++ "|1") + 1
  boltPutGen s t (trimRevision s.history t.Key (rev - 1 - s.maxRev)) none

/-- `boltStore.Get` (bolt.go lines 84-104): `ErrNotFound` when the
`<key>|1` meta entry is absent; otherwise `NewTiddler(meta, text)` with
the `<key>|2` entry as text (fat when present). -/
def boltGet (s : BoltStore) (key : String) : Except Err Tiddler :=
  match alook s.tiddler (key ++ "|1") with
  | none => .error .errNotFound
  | some meta =>
      let text := alook s.tiddler (key ++ "|2")
      exceptOfNew (NewTiddler meta (text.map Bytes.asString))

/-- `boltStore.Delete` (bolt.go lines 228-256): removes both current
entries and trims all history with revision `<=` the last revision. -/
def boltDelete (s : BoltStore) (key : String) : Option Err × BoltStore :=
  let mkey := key ++ "|1"
  let rev := boltGetLastRevision s.tiddler mkey
  let tb := aerase (aerase s.tiddler mkey) (key ++ "|2")
  let hist := trimRevision s.history key rev
  (none, { s with tiddler := tb, history := hist })

/-- `boltStore.SetMaxHistory`. -/
def boltSetMaxHistory (s : BoltStore) (n : Int) : BoltStore :=
  { s with maxRev := n }

/-! ## The flatFile backend (src/unnamed/part_004, package flatFile)

Current values live in the `tiddlers` directory as `<file>.meta` /
`<file>.tid` pairs, history in the `tiddlerHistory` directory as
`<file>#<revision>` files, where `<file>` is `key2File` of the title.
Directories are modelled as filename-keyed maps of file contents. -/

/-- `flatFileStore`: the two directories and `maxRev`. -/
structure FlatStore where
  maxRev : Int
  tiddlers : List (String × Bytes)
  history : List (String × Bytes)
deriving Repr

/-- `key2File` (part_004 lines 91-101): map each of the characters
`< > : " / \ | ? * ^` to `'_'` (`strings.Map` over the runes). -/
def key2File (key : String) : String :=
  let illegalChar : List Char := ['<', '>', ':', '"', '/', '\\', '|', '?', '*', '^']
  String.mk (key.data.map (fun r => if illegalChar.contains r then '_' else r))

/-- flatFile `getLastRevision` (part_004 lines 148-164): 1 when the
`.meta` file is absent (or unreadable), else `GetRevision` of the
skinny tiddler built from its contents. `key` is already `key2File`d
by the caller. -/
def flatGetLastRevision (s : FlatStore) (key : String) : Int :=
  match alook s.tiddlers (key ++ ".meta") with
  | none => 1
  | some meta => Tiddler.GetRevision { Meta := some meta }

/-- `flatFileStore.trimRevision` (part_004 lines 166-177): computes the
candidate revision `rev - maxRev` and stats its history file, but
contains no remove call, so the store is returned unchanged on every
path. -/
def flatTrimRevision (s : FlatStore) (_key : String) (rev : Int) : FlatStore :=
  let tryRev := rev - s.maxRev
  if tryRev ≤ 0 then s
  else s

/-- `flatFileStore.Put` (part_004 lines 181-235). System tiddlers get
only a `.meta` file holding the fat serialization and no history.
Otherwise non-draft tiddlers get a history file whenever
`maxRev ≠ 0` (the `switch`: `case 0` skips, `default` trims and falls
through to `case -1` which writes), and the current `.tid`/`.meta`
pair is written with text split out of the meta. -/
def flatPut (s : FlatStore) (t : Tiddler) : Int × FlatStore :=
  let key := key2File t.Key
  let rev := flatGetLastRevision s key + 1
  let js := aset (t.Js.getD []) "revision" (.num rev)
  if t.IsSys then
    let meta := marshalled t js
    (rev, { s with tiddlers := aset s.tiddlers (key ++ ".meta") meta })
  else
    let s1 :=
      if t.IsDraft = false ∧ s.maxRev ≠ 0 ∧ s.maxRev ≠ -1 then
        flatTrimRevision s key rev
      else s
    let hist :=
      if t.IsDraft = false ∧ s.maxRev ≠ 0 then
        aset s1.history (key ++ "#" ++ toString rev) (marshalled t js)
      else s1.history
    let text := textOf js
    let js2 := aerase js "text"
    let files := aset (aset s1.tiddlers (key ++ ".tid") (.raw text))
        (key ++ ".meta") (.json (.obj js2))
    (rev, { s1 with tiddlers := files, history := hist })

/-- `flatFileStore.Get` (part_004 lines 104-127): `ErrNotFound` when
the `.meta` file is absent; system tiddlers are read meta-only, others
also read the `.tid` file (an I/O error if it is missing). -/
def flatGet (s : FlatStore) (key : String) : Except Err Tiddler :=
  let isSys := "$:/".data.isPrefixOf key.data
  let k := key2File key
  match alook s.tiddlers (k ++ ".meta") with
  | none => .error .errNotFound
  | some meta =>
      if isSys then exceptOfNew (NewTiddler meta none)
      else
        match alook s.tiddlers (k ++ ".tid") with
        | none => .error .ioError
        | some text => exceptOfNew (NewTiddler meta (some text.asString))

/-- `flatFileStore.Delete` (part_004 lines 238-249): removes the
`.meta` and `.tid` files (an error if either is missing); history
files are left in place. -/
def flatDelete (s : FlatStore) (key : String) : Option Err × FlatStore :=
  let k := key2File key
  match alook s.tiddlers (k ++ ".meta") with
  | none => (some .ioError, s)
  | some _ =>
      let f1 := aerase s.tiddlers (k ++ ".meta")
      match alook f1 (k ++ ".tid") with
      | none => (some .ioError, { s with tiddlers := f1 })
      | some _ => (none, { s with tiddlers := aerase f1 (k ++ ".tid") })

/-- `flatFileStore.SetMaxHistory`. -/
def flatSetMaxHistory (s : FlatStore) (n : Int) : FlatStore :=
  { s with maxRev := n }

/-! ## The sqlite backend (src/unnamed/part_002, package sqlite)

Two tables: `tiddler` (title UNIQUE, upserted) and `tiddler_history`
(append-only rows, deleted by title and revision threshold). -/

/-- A row of the `tiddler` / `tiddler_history` tables (the
AUTOINCREMENT id column plays no role in the modelled queries). -/
structure SqliteRow where
  title : String
  meta : Bytes
  content : String
  revision : Int
deriving Repr

/-- `sqliteStore`. -/
structure SqliteStore where
  maxRev : Int
  tiddler : List SqliteRow
  history : List SqliteRow
deriving Repr

/-- sqlite `getLastRevision` (part_002 lines 278-286):
`SELECT revision FROM tiddler WHERE title = ?`; a scan error (no rows)
yields 1, else the stored revision. -/
def sqliteGetLastRevision (s : SqliteStore) (key : String) : Int :=
  match s.tiddler.find? (fun r => r.title == key) with
  | none => 1
  | some r => r.revision

/-- `sqliteStore.trimRevision` (part_002 lines 289-299):
`DELETE FROM tiddler_history WHERE title = ? AND revision <= ?`. -/
def sqliteTrimRevision (hist : List SqliteRow) (key : String) (rev : Int) :
    List SqliteRow :=
  hist.filter (fun r => !(r.title == key && decide (r.revision ≤ rev)))

/-- `sqliteStore.Put` (part_002 lines 303-351) with the trim outcome
injected, as for bolt: the call `s.trimRevision(...)` on line 333
discards the returned error. The current row is upserted
(`ON CONFLICT(title) DO UPDATE`) before the history step. -/
def sqlitePutGen (s : SqliteStore) (t : Tiddler) (trimmed : List SqliteRow)
    (_trimErr : Option Err) : Int × SqliteStore :=
  let rev := sqliteGetLastRevision s t.Key + 1
  let js := aset (t.Js.getD []) "revision" (.num rev)
  let text := textOf js
  let js2 := aerase js "text"
  let meta := Bytes.json (.obj js2)
  let table := upsert s.tiddler t.Key meta text rev
  let hist :=
    if s.maxRev ≠ 0 ∧ t.IsDraft = false ∧ t.IsSys = false then
      let h1 := if s.maxRev > 0 ∧ rev - s.maxRev > 1 then trimmed else s.history
      h1 ++ [⟨t.Key, meta, text, rev⟩]
    else s.history
  (rev, { s with tiddler := table, history := hist })
where
  /-- `INSERT ... ON CONFLICT(title) DO UPDATE SET ...` on the UNIQUE
  title column. -/
  upsert : List SqliteRow → String → Bytes → String → Int → List SqliteRow
    | [], k, m, c, r => [⟨k, m, c, r⟩]
    | row :: rest, k, m, c, r =>
        if row.title = k then ⟨k, m, c, r⟩ :: rest
        else row :: upsert rest k m c r

/-- `sqliteStore.Put` proper. -/
def sqlitePut (s : SqliteStore) (t : Tiddler) : Int × SqliteStore :=
  let rev := sqliteGetLastRevision s t.Key + 1
  sqlitePutGen s t (sqliteTrimRevision s.history t.Key (rev - 1 - s.maxRev)) none

/-- `sqliteStore.Get` (part_002 lines 233-242):
`SELECT meta, content FROM tiddler WHERE title = ?`; when no row
matches, the raw `database/sql` scan error `ErrNoRows` is returned
unchanged (not `store.ErrNotFound`). The scanned content string is
always passed to `NewTiddler` as non-nil text. -/
def sqliteGet (s : SqliteStore) (key : String) : Except Err Tiddler :=
  match s.tiddler.find? (fun r => r.title == key) with
  | none => .error .sqlErrNoRows
  | some r => exceptOfNew (NewTiddler r.meta (some r.content))

/-- `sqliteStore.Delete` (part_002 lines 354-378): deletes the current
row, and all history rows of the title unless `maxRev = 0`. -/
def sqliteDelete (s : SqliteStore) (key : String) : Option Err × SqliteStore :=
  let table := s.tiddler.filter (fun r => !(r.title == key))
  let hist :=
    if s.maxRev = 0 then s.history
    else s.history.filter (fun r => !(r.title == key))
  (none, { s with tiddler := table, history := hist })

/-- `sqliteStore.SetMaxHistory`. -/
def sqliteSetMaxHistory (s : SqliteStore) (n : Int) : SqliteStore :=
  { s with maxRev := n }

/-! ## The backend registry (src/unnamed/part_006)

`backendlist` maps lowercased backend names to `TiddlerBackend`
records. The Go constructor type `OpenFn` is abstracted by a type
parameter `F`; a nil Go function value is `none`. -/

/-- `strings.ToLower` (ASCII range, which covers every backend name
the program registers). -/
def toLowerGo (s : String) : String :=
  String.mk (s.data.map (fun c =>
    if 'A' ≤ c ∧ c ≤ 'Z' then Char.ofNat (c.toNat + 32) else c))

/-- `store.TiddlerBackend`. -/
structure TiddlerBackend (F : Type) where
  Name : String
  Open : F

/-- The `backendlist` map. -/
abbrev Registry (F : Type) := List (String × TiddlerBackend F)

/-- `store.RegBackend` (part_006 lines 144-158): a nil `fn` is refused
with `ErrDBNotExist` before anything else; then the lowercased name
must be fresh or `ErrDBExist` is returned with the registry unchanged;
otherwise the backend is stored under the lowercased name (keeping the
original spelling in `Name`). -/
def RegBackend {F : Type} (reg : Registry F) (nameo : String) (fn : Option F) :
    Option Err × Registry F :=
  match fn with
  | none => (some .errDBNotExist, reg)
  | some f =>
      let name := toLowerGo nameo
      match alook reg name with
      | some _ => (some .errDBExist, reg)
      | none => (none, aset reg name ⟨nameo, f⟩)

/-- `store.Open` (part_006 lines 135-142): `ErrDBNotExist` when the
lowercased name is unregistered; otherwise the call is delegated to
the registered constructor — the delegated application
`db.Open(dataSource)` is represented by the pair of the constructor
and its argument, since `F` is abstract. -/
def openBackend {F : Type} (reg : Registry F) (name dataSource : String) :
    Except Err (F × String) :=
  match alook reg (toLowerGo name) with
  | none => .error .errDBNotExist
  | some db => .ok (db.Open, dataSource)

/-! ## Derived operations and sample data used by the theorems -/

/-- The `title` field of a field map, as a string (`""` when absent or
not a string), mirroring how the serialized JSON names the key. -/
def titleOf (js : JsMap) : String :=
  match alook js "title" with
  | some (.str s) => s
  | _ => ""

/-- The error component of a `Get` result (`none` on success). -/
def errOf {α : Type} : Except Err α → Option Err
  | .error e => some e
  | .ok _ => none

/-- A sequence of successive `boltStore.Put` calls, returning the
revisions in call order together with the final store. -/
def boltPutSeq (s : BoltStore) : List Tiddler → List Int × BoltStore
  | [] => ([], s)
  | t :: rest =>
      let r := boltPut s t
      let rs := boltPutSeq r.2 rest
      (r.1 :: rs.1, rs.2)

/-- An empty freshly opened bolt store (`Open` sets `maxRev` to -1 and
creates empty buckets). -/
def bolt0 : BoltStore := { maxRev := -1, tiddler := [], history := [] }

/-- An empty freshly opened flatFile store. -/
def flat0 : FlatStore := { maxRev := -1, tiddlers := [], history := [] }

/-- An empty freshly opened sqlite store. -/
def sq0 : SqliteStore := { maxRev := -1, tiddler := [], history := [] }

/-- A plain non-draft, non-system tiddler, as the api layer hands it
to `Put` after decoding a request body for title `"a"`. -/
def tdA : Tiddler :=
  { Key := "a", Js := some [("title", .str "a"), ("text", .str "hello")] }

/-- A draft tiddler (the api layer sets `IsDraft` from
`fields["draft.of"]`). -/
def tdDraft : Tiddler :=
  { Key := "d", IsDraft := true,
    Js := some [("title", .str "d"), ("text", .str "wip")] }

/-- A system tiddler (`IsSys` from the `$:/` title). -/
def tdSys : Tiddler :=
  { Key := "$:/x", IsSys := true,
    Js := some [("title", .str "$:/x"), ("text", .str "cfg")] }

/-- The bolt store after `SetMaxHistory(2)` and five successive `Put`s
of `tdA` from empty. -/
def bolt5n2 : BoltStore :=
  (boltPutSeq { maxRev := 2, tiddler := [], history := [] }
    [tdA, tdA, tdA, tdA, tdA]).2

/-- A one-entry registry obtained by registering `"x"`. -/
def regX : Registry Unit := (RegBackend ([] : Registry Unit) "x" (some ())).2

/-- A tiddler whose title contains `'/'`, one of `key2File`'s replaced
characters. -/
def tSlash : Tiddler :=
  { Key := "a/b", Js := some [("title", .str "a/b"), ("text", .str "hello")] }

/-- A tiddler whose title is the `'_'` form the previous one maps to. -/
def tUnder : Tiddler :=
  { Key := "a_b", Js := some [("title", .str "a_b"), ("text", .str "bye")] }

/-- The flatFile store after putting `tSlash` on an empty store. -/
def flatAB1 : FlatStore := (flatPut flat0 tSlash).2

/-- ... and after then putting `tUnder` as well. -/
def flatAB2 : FlatStore := (flatPut flatAB1 tUnder).2

/-- A sample decoded metadata map with a title and a revision. -/
def c8map : JsMap := [("title", .str "A"), ("revision", .num 3)]

/-! ## Supporting lemmas -/

theorem string_data_append (a b : String) : (a ++ b).data = a.data ++ b.data := by
  cases a; cases b; rfl

theorem string_append_ne (k a b : String) (h : a ≠ b) : k ++ a ≠ k ++ b := by
  intro he
  apply h
  have hd : (k ++ a).data = (k ++ b).data := by rw [he]
  rw [string_data_append, string_data_append] at hd
  have hab := List.append_cancel_left hd
  cases a; cases b
  exact congrArg String.mk hab

theorem key_meta_ne_text (k : String) : k ++ "|1" ≠ k ++ "|2" := by
  apply string_append_ne
  decide

/-- The meta bytes `boltPut` writes for the current value carry the
new revision in their `revision` field. -/
theorem unmarshalRevision_put_meta (js : JsMap) (rev : Int) :
    unmarshalRevision (.json (.obj (aerase (aset js "revision" (.num rev)) "text")))
      = some rev := by
  have h1 : alook (aerase (aset js "revision" (.num rev)) "text") "revision"
      = alook (aset js "revision" (.num rev)) "revision" := by
    apply alook_aerase_ne
    decide
  simp [unmarshalRevision, h1, alook_aset_self]

theorem boltPut_rev (s : BoltStore) (t : Tiddler) :
    (boltPut s t).1 = boltGetLastRevision s.tiddler (t.Key ++ "|1") + 1 := rfl

theorem boltPut_maxRev (s : BoltStore) (t : Tiddler) :
    (boltPut s t).2.maxRev = s.maxRev := rfl

/-- After a `boltPut`, the stored last revision of the written key is
the revision the call returned. -/
theorem boltPut_lastRevision (s : BoltStore) (t : Tiddler) :
    boltGetLastRevision (boltPut s t).2.tiddler (t.Key ++ "|1") = (boltPut s t).1 := by
  have hmeta :
      alook (boltPut s t).2.tiddler (t.Key ++ "|1")
        = some (.json (.obj (aerase
            (aset (t.Js.getD []) "revision"
              (.num (boltGetLastRevision s.tiddler (t.Key ++ "|1") + 1))) "text"))) := by
    show alook (aset (aset s.tiddler (t.Key ++ "|1") _) (t.Key ++ "|2") _) (t.Key ++ "|1") = _
    rw [alook_aset_ne _ _ _ _ (key_meta_ne_text t.Key).symm, alook_aset_self]
  rw [boltPut_rev]
  simp [boltGetLastRevision, hmeta, unmarshalRevision_put_meta]

/-- Revisions returned by a run of successive `boltPut` calls on one
key count up from one past the stored last revision. -/
theorem boltPutSeq_revs (ts : List Tiddler) (s : BoltStore) (k : String) (r : Int)
    (hk : ∀ t ∈ ts, t.Key = k)
    (hr : boltGetLastRevision s.tiddler (k ++ "|1") = r) :
    (boltPutSeq s ts).1
      = (List.range ts.length).map (fun i : Nat => r + 1 + (i : Int)) := by
  induction ts generalizing s r with
  | nil => simp [boltPutSeq]
  | cons t rest ih =>
    have hkt : t.Key = k := hk t (List.mem_cons_self t rest)
    have hrev : (boltPut s t).1 = r + 1 := by
      simp [boltPut_rev, hkt, hr]
    have hlast : boltGetLastRevision (boltPut s t).2.tiddler (k ++ "|1") = r + 1 := by
      have h0 := boltPut_lastRevision s t
      rw [hkt] at h0
      rw [h0, hrev]
    have htail := ih (boltPut s t).2 (r + 1)
      (fun t2 ht2 => hk t2 (List.mem_cons_of_mem t ht2)) hlast
    simp only [boltPutSeq, htail, hrev, List.length_cons, List.range_succ_eq_map,
      List.map_cons, List.map_map]
    congr 1
    · simp
    · apply List.map_congr_left
      intro i _
      simp only [Function.comp_apply]
      push_cast
      ring

/-! ## Claim C1 -/

/-- C1 counterexample: on a freshly opened bolt store, the first `Put`
of the never-seen key `"a"` returns revision 2, not 1, because
`getLastRevision` reports 1 for an absent key and `Put` adds 1 to it. -/
theorem claimC1_counterexample :
    (boltPut bolt0 tdA).1 = 2 ∧ (boltPut bolt0 tdA).1 ≠ 1 := by
  refine ⟨rfl, ?_⟩
  decide

/-- C1 (amended): for every key and every sequence of N successive
`Put` calls on that key with no intervening `Delete` and no concurrent
callers, starting from a store that has never seen the key, the
revisions returned by `Put` are exactly 2, 3, ..., N+1 in call order;
in particular the first `Put` on a never-seen key returns revision 2. -/
theorem claimC1_amended (s : BoltStore) (k : String) (ts : List Tiddler)
    (hk : ∀ t ∈ ts, t.Key = k)
    (hnew : alook s.tiddler (k ++ "|1") = none) :
    (boltPutSeq s ts).1
      = (List.range ts.length).map (fun i : Nat => 2 + (i : Int)) := by
  have h1 : boltGetLastRevision s.tiddler (k ++ "|1") = 1 := by
    simp [boltGetLastRevision, hnew]
  rw [boltPutSeq_revs ts s k 1 hk h1]
  apply List.map_congr_left
  intro i _
  ring

/-- C1 witness: three successive Puts of key `"a"` on a fresh bolt
store return revisions 2, 3, 4. -/
theorem claimC1_witness :
    (∀ t ∈ [tdA, tdA, tdA], t.Key = "a") ∧
      alook bolt0.tiddler ("a" ++ "|1") = none ∧
      (boltPutSeq bolt0 [tdA, tdA, tdA]).1 = [2, 3, 4] := by
  have hk : ∀ t ∈ [tdA, tdA, tdA], t.Key = "a" := by
    intro t ht
    simp only [List.mem_cons, List.not_mem_nil, or_false] at ht
    rcases ht with h | h | h <;> rw [h] <;> rfl
  refine ⟨hk, rfl, ?_⟩
  rw [claimC1_amended bolt0 "a" [tdA, tdA, tdA] hk rfl]
  rfl

/-! ## Claim C2 -/

/-- C2 counterexample: with `SetMaxHistory(2)`, after five `Put`s of a
non-draft, non-system key on a fresh bolt store, three history entries
remain, not at most two: the trim threshold `newRevision - 1 - maxRev`
keeps `maxRev + 1` entries (the new entry is written after the trim). -/
theorem claimC2_counterexample :
    bolt5n2.history.length = 3 ∧ ¬ bolt5n2.history.length ≤ 2 := by
  exact ⟨rfl, by decide⟩

/-- C2 (amended): the bolt trim deletes exactly the history entries of
the key with revision `≤ newRevision - 1 - maxHistory`, so after a Put
only entries with revision above that threshold remain — which is up to
`maxHistory + 1` entries, not `maxHistory`: after five Puts of `"a"`
with `SetMaxHistory(2)` the remaining entries are the three most recent
revisions 4, 5, 6. In the flatFile backend `trimRevision` removes
nothing at all (it stats the candidate history file but contains no
remove call), so no history is ever deleted there. -/
theorem claimC2_amended :
    (∀ (h : Bucket) (k : String) (r : Int) (e : String × Bytes),
        e ∈ trimRevision h k r →
          (k ++ "#").data.isPrefixOf e.1.data = true →
            revOfHistKey e.1 > r) ∧
      bolt5n2.history.map Prod.fst = ["a#4", "a#5", "a#6"] ∧
      (∀ (s : FlatStore) (k : String) (r : Int), flatTrimRevision s k r = s) := by
  refine ⟨?_, rfl, ?_⟩
  · intro h k r e he hpre
    simp only [trimRevision, List.mem_filter] at he
    have hb := he.2
    rw [hpre] at hb
    simp only [Bool.true_and, Bool.not_eq_true', decide_eq_false_iff_not, not_le] at hb
    exact hb
  · intro s k r
    simp [flatTrimRevision]

/-- C2 witness: a surviving concrete trim entry has revision above the
threshold. -/
theorem claimC2_witness :
    (("a#3", Bytes.raw "x")
        ∈ trimRevision [("a#1", Bytes.raw "w"), ("a#3", Bytes.raw "x")] "a" 2) ∧
      revOfHistKey "a#3" > 2 := by
  have hm : ("a#3", Bytes.raw "x")
      ∈ trimRevision [("a#1", Bytes.raw "w"), ("a#3", Bytes.raw "x")] "a" 2 :=
    List.Mem.head _
  exact ⟨hm, claimC2_amended.1 _ "a" 2 _ hm rfl⟩

/-! ## Claim C3 -/

/-- C3: a `Put` of a draft tiddler (`fields.draft.of` present, `IsDraft`
set) or of a system-key tiddler (`IsSys` set) writes no history entry,
in every backend, whatever `SetMaxHistory` was called with. -/
theorem claimC3_no_history_for_draft_or_sys (bs : BoltStore) (fs : FlatStore)
    (ss : SqliteStore) (t : Tiddler) (h : t.IsDraft = true ∨ t.IsSys = true) :
    (boltPut bs t).2.history = bs.history ∧
      (flatPut fs t).2.history = fs.history ∧
      (sqlitePut ss t).2.history = ss.history := by
  refine ⟨?_, ?_, ?_⟩
  · rcases h with h | h <;> simp [boltPut, boltPutGen, h]
  · by_cases hsys : t.IsSys
    · simp [flatPut, hsys]
    · rcases h with h | h
      · simp [flatPut, hsys, h]
      · exact absurd h (by simpa using hsys)
  · rcases h with h | h <;> simp [sqlitePut, sqlitePutGen, h]

/-- C3 witness: a concrete draft put on fresh stores leaves every
history empty. -/
theorem claimC3_witness :
    (tdDraft.IsDraft = true ∨ tdDraft.IsSys = true) ∧
      (boltPut bolt0 tdDraft).2.history = bolt0.history ∧
      (flatPut flat0 tdDraft).2.history = flat0.history ∧
      (sqlitePut sq0 tdDraft).2.history = sq0.history := by
  have h := claimC3_no_history_for_draft_or_sys bolt0 flat0 sq0 tdDraft (Or.inl rfl)
  exact ⟨Or.inl rfl, h.1, h.2.1, h.2.2⟩

/-! ## Claim C4 -/

/-- C4: in the bolt and flatFile backends, `Get` of a never-written or
deleted key fails with `store.ErrNotFound`; but the sqlite backend's
`Get` returns the substrate's `sql.ErrNoRows` scan error unchanged,
which is a different error value than `store.ErrNotFound` — violating
the `TiddlerStore` interface contract ("Get should return ErrNotFound
error when no tiddlers with the given key are found"). -/
theorem claimC4_get_notfound :
    sqliteGet sq0 "a" = .error .sqlErrNoRows ∧
      sqliteGet (sqliteDelete (sqlitePut sq0 tdA).2 "a").2 "a"
        = .error .sqlErrNoRows ∧
      Err.sqlErrNoRows ≠ Err.errNotFound ∧
      boltGet bolt0 "a" = .error .errNotFound ∧
      flatGet flat0 "a" = .error .errNotFound ∧
      errOf (boltGet (boltDelete (boltPut bolt0 tdA).2 "a").2 "a")
        = some .errNotFound ∧
      errOf (flatGet (flatDelete (flatPut flat0 tdA).2 "a").2 "a")
        = some .errNotFound := by
  exact ⟨rfl, rfl, by decide, rfl, rfl, rfl, rfl⟩

/-! ## Claim C5 -/

/-- C5 counterexample: on metadata that parses but has no `revision`
field, `GetRevision` returns Go's zero value 0, not the claimed 1
(`json.Unmarshal` succeeds and leaves the struct field at 0). -/
theorem claimC5_counterexample :
    Tiddler.GetRevision { Meta := some (.json (.obj [("title", .str "a")])) } = 0 ∧
      Tiddler.GetRevision { Meta := some (.json (.obj [("title", .str "a")])) } ≠ 1 := by
  exact ⟨rfl, by decide⟩

/-- C5 (amended): the revision lookup returns the parsed value of the
`revision` field, and returns 1 when the metadata bytes are nil or
unparseable (including a non-integer `revision` value); but when the
metadata parses and the field is absent it returns 0, the unmarshalled
struct's zero value. The bolt `getLastRevision` treats an absent or
unparseable bucket entry the same way (result 1). Neither ever raises
an error. -/
theorem claimC5_amended :
    (∀ (fs : JsMap) (n : Int), alook fs "revision" = some (.num n) →
        Tiddler.GetRevision { Meta := some (.json (.obj fs)) } = n) ∧
      (∀ s : String, Tiddler.GetRevision { Meta := some (.raw s) } = 1) ∧
      Tiddler.GetRevision { Meta := none } = 1 ∧
      (∀ fs : JsMap, alook fs "revision" = none →
        Tiddler.GetRevision { Meta := some (.json (.obj fs)) } = 0) ∧
      (∀ (b : Bucket) (mk : String), alook b mk = none →
        boltGetLastRevision b mk = 1) ∧
      (∀ (b : Bucket) (mk s : String), alook b mk = some (.raw s) →
        boltGetLastRevision b mk = 1) := by
  refine ⟨?_, fun s => rfl, rfl, ?_, ?_, ?_⟩
  · intro fs n h
    simp [Tiddler.GetRevision, unmarshalRevision, h]
  · intro fs h
    simp [Tiddler.GetRevision, unmarshalRevision, h]
  · intro b mk h
    simp [boltGetLastRevision, h]
  · intro b mk s h
    simp [boltGetLastRevision, h, unmarshalRevision]

/-- C5 witness: concrete metadata with `revision` 7 yields 7; concrete
metadata without the field yields 0. -/
theorem claimC5_witness :
    alook [("revision", Json.num 7)] "revision" = some (.num 7) ∧
      Tiddler.GetRevision { Meta := some (.json (.obj [("revision", Json.num 7)])) } = 7 ∧
      alook ([("title", Json.str "a")] : JsMap) "revision" = none ∧
      Tiddler.GetRevision { Meta := some (.json (.obj [("title", Json.str "a")])) } = 0 :=
  ⟨rfl, claimC5_amended.1 _ 7 rfl, rfl, claimC5_amended.2.2.2.1 _ rfl⟩

/-! ## Claim C6 -/

/-- With `maxRev = 0`, a run of `boltPut`s never touches the history
bucket (`SetMaxHistory` is the only maxRev mutation and `Put` keeps it). -/
theorem boltPutSeq_history_maxRev0 (ts : List Tiddler) (s : BoltStore)
    (h : s.maxRev = 0) : (boltPutSeq s ts).2.history = s.history := by
  induction ts generalizing s with
  | nil => rfl
  | cons t rest ih =>
    have h1 : (boltPut s t).2.history = s.history := by
      simp [boltPut, boltPutGen, h]
    have h2 : (boltPut s t).2.maxRev = 0 := by
      rw [boltPut_maxRev, h]
    simp [boltPutSeq, ih (boltPut s t).2 h2, h1]

/-- C6: after `SetMaxHistory(0)`, no `Put` writes a history entry for
any key in any backend; iterating `Put`s on the bolt store keeps the
history exactly as it started (so empty history stays empty). -/
theorem claimC6_no_history_when_disabled (bs : BoltStore) (fs : FlatStore)
    (ss : SqliteStore) (t : Tiddler) (ts : List Tiddler)
    (hb : bs.maxRev = 0) (hf : fs.maxRev = 0) (hs : ss.maxRev = 0) :
    (boltPut bs t).2.history = bs.history ∧
      (flatPut fs t).2.history = fs.history ∧
      (sqlitePut ss t).2.history = ss.history ∧
      (boltPutSeq bs ts).2.history = bs.history := by
  refine ⟨by simp [boltPut, boltPutGen, hb], ?_, by simp [sqlitePut, sqlitePutGen, hs],
    boltPutSeq_history_maxRev0 ts bs hb⟩
  by_cases hsys : t.IsSys
  · simp [flatPut, hsys]
  · simp [flatPut, hsys, hf]

/-- C6 witness: on concrete `maxRev = 0` stores, four Puts of `"a"`
leave all histories empty. -/
theorem claimC6_witness :
    (boltSetMaxHistory bolt0 0).maxRev = 0 ∧
      (boltPutSeq (boltSetMaxHistory bolt0 0) [tdA, tdA, tdA, tdA]).2.history = [] ∧
      (flatPut (flatSetMaxHistory flat0 0) tdA).2.history = [] ∧
      (sqlitePut (sqliteSetMaxHistory sq0 0) tdA).2.history = [] := by
  have h := claimC6_no_history_when_disabled (boltSetMaxHistory bolt0 0)
    (flatSetMaxHistory flat0 0) (sqliteSetMaxHistory sq0 0) tdA
    [tdA, tdA, tdA, tdA] rfl rfl rfl
  exact ⟨rfl, h.2.2.2, h.2.1, h.2.2.1⟩

/-! ## Claim C7 -/

/-- C7: the outcome of the history-trim step — both the state it leaves
the history in and the error it returns — has no effect on the revision
a `Put` returns or on the current-value data it persists, in the bolt
and sqlite backends (the source discards `trimRevision`'s error and
nothing after the trim reads its result except the history bucket);
`boltPut`/`sqlitePut` are definitionally the generators applied to the
actual trim outcome, and the just-written current meta (carrying the
new revision) is stored under `<key>|1` whatever the trim did. -/
theorem claimC7_trim_failure_ignored (bs : BoltStore) (ss : SqliteStore)
    (t : Tiddler) (h1 h2 : Bucket) (e1 e2 : Option Err)
    (r1 r2 : List SqliteRow) (f1 f2 : Option Err) :
    (boltPutGen bs t h1 e1).1 = (boltPutGen bs t h2 e2).1 ∧
      (boltPutGen bs t h1 e1).2.tiddler = (boltPutGen bs t h2 e2).2.tiddler ∧
      (sqlitePutGen ss t r1 f1).1 = (sqlitePutGen ss t r2 f2).1 ∧
      (sqlitePutGen ss t r1 f1).2.tiddler = (sqlitePutGen ss t r2 f2).2.tiddler ∧
      boltPut bs t = boltPutGen bs t (trimRevision bs.history t.Key
        (boltGetLastRevision bs.tiddler (t.Key ++ "|1") + 1 - 1 - bs.maxRev)) none ∧
      sqlitePut ss t = sqlitePutGen ss t (sqliteTrimRevision ss.history t.Key
        (sqliteGetLastRevision ss t.Key + 1 - 1 - ss.maxRev)) none ∧
      alook (boltPutGen bs t h1 e1).2.tiddler (t.Key ++ "|1")
        = some (.json (.obj (aerase (aset (t.Js.getD []) "revision"
            (.num (boltGetLastRevision bs.tiddler (t.Key ++ "|1") + 1))) "text"))) := by
  refine ⟨rfl, rfl, rfl, rfl, rfl, rfl, ?_⟩
  show alook (aset (aset bs.tiddler (t.Key ++ "|1") _) (t.Key ++ "|2") _)
    (t.Key ++ "|1") = _
  rw [alook_aset_ne _ _ _ _ (key_meta_ne_text t.Key).symm, alook_aset_self]

/-! ## Claim C8 -/

/-- C8: for a tiddler built by `NewTiddler` from metadata bytes plus
non-nil text, unmarshalling the bytes `MarshalJSON` produces yields
exactly the tiddler's field map, whose `title` and `revision` are those
of the original metadata and whose `text` is the supplied text — the
decode of the encode reproduces key, revision and text. -/
theorem claimC8_roundtrip (fs : JsMap) (txt : String) (t : Tiddler)
    (h : NewTiddler (.json (.obj fs)) (some txt) = some t) :
    unmarshalObj t.MarshalJSON = t.Js ∧
      t.Js = some (aset fs "text" (.str txt)) ∧
      titleOf (aset fs "text" (.str txt)) = titleOf fs ∧
      alook (aset fs "text" (.str txt)) "revision" = alook fs "revision" ∧
      textOf (aset fs "text" (.str txt)) = txt := by
  have ht : ({ Js := some (aset fs "text" (.str txt)) } : Tiddler) = t :=
    Option.some.inj h
  have htitle : alook (aset fs "text" (.str txt)) "title" = alook fs "title" :=
    alook_aset_ne fs "text" "title" _ (by decide)
  refine ⟨?_, ?_, ?_, alook_aset_ne fs "text" "revision" _ (by decide), ?_⟩
  · rw [← ht]; rfl
  · rw [← ht]
  · simp [titleOf, htitle]
  · simp [textOf, alook_aset_self]

/-- C8 witness: a concrete metadata map with title `"A"`, revision 3
and text `"hi"` round-trips. -/
theorem claimC8_witness :
    NewTiddler (.json (.obj c8map)) (some "hi")
        = some { Js := some (aset c8map "text" (.str "hi")) } ∧
      unmarshalObj (Tiddler.MarshalJSON { Js := some (aset c8map "text" (.str "hi")) })
        = some (aset c8map "text" (.str "hi")) ∧
      titleOf (aset c8map "text" (.str "hi")) = "A" ∧
      alook (aset c8map "text" (.str "hi")) "revision" = some (.num 3) ∧
      textOf (aset c8map "text" (.str "hi")) = "hi" := by
  have h := claimC8_roundtrip c8map "hi"
    { Js := some (aset c8map "text" (.str "hi")) } rfl
  exact ⟨rfl, h.1, rfl, rfl, h.2.2.2.2⟩

/-! ## Claim C9 -/

/-- C9 counterexample: `RegBackend` called with a nil constructor on an
already-registered name returns `ErrDBNotExist`, not the
duplicate-backend error `ErrDBExist` — the nil check precedes the
duplicate check, breaking the claimed "if and only if". -/
theorem claimC9_counterexample :
    (alook regX (toLowerGo "x")).isSome = true ∧
      (RegBackend regX "x" (none : Option Unit)).1 = some .errDBNotExist ∧
      (RegBackend regX "x" (none : Option Unit)).1 ≠ some .errDBExist := by
  exact ⟨rfl, rfl, by decide⟩

/-- C9 (amended): for a non-nil constructor, `RegBackend` returns
`ErrDBExist` exactly when the lowercased name is already registered
(leaving the registry unchanged), and otherwise succeeds and stores the
backend; with a nil constructor it returns `ErrDBNotExist` regardless.
`openBackend` returns `ErrDBNotExist` exactly when the lowercased name
is unregistered, and otherwise delegates the data source to the
registered constructor. -/
theorem claimC9_amended {F : Type} (reg : Registry F) (nameo nm ds : String)
    (f : F) :
    ((alook reg (toLowerGo nameo)).isSome = true →
        RegBackend reg nameo (some f) = (some .errDBExist, reg)) ∧
      (alook reg (toLowerGo nameo) = none →
        (RegBackend reg nameo (some f)).1 = none ∧
          alook (RegBackend reg nameo (some f)).2 (toLowerGo nameo)
            = some ⟨nameo, f⟩) ∧
      RegBackend reg nameo (none : Option F) = (some .errDBNotExist, reg) ∧
      (alook reg (toLowerGo nm) = none →
        openBackend reg nm ds = .error .errDBNotExist) ∧
      (∀ db : TiddlerBackend F, alook reg (toLowerGo nm) = some db →
        openBackend reg nm ds = .ok (db.Open, ds)) := by
    refine ⟨?_, ?_, rfl, ?_, ?_⟩
    · intro hsome
      obtain ⟨db, hdb⟩ := Option.isSome_iff_exists.mp hsome
      simp [RegBackend, hdb]
    · intro hnone
      refine ⟨by simp [RegBackend, hnone], ?_⟩
      simp [RegBackend, hnone, alook_aset_self]
    · intro hnone
      simp [openBackend, hnone]
    · intro db hdb
      simp [openBackend, hdb]

/-- C9 witness: registering `"BBolt"` in an empty registry succeeds and
is found under `"bbolt"`; opening an unregistered name fails with
`ErrDBNotExist`. -/
theorem claimC9_witness :
    alook ([] : Registry Unit) (toLowerGo "BBolt") = none ∧
      (RegBackend ([] : Registry Unit) "BBolt" (some ())).1 = none ∧
      alook (RegBackend ([] : Registry Unit) "BBolt" (some ())).2 (toLowerGo "BBolt")
        = some ⟨"BBolt", ()⟩ ∧
      openBackend ([] : Registry Unit) "y" "widdly.db" = .error .errDBNotExist := by
  have h := claimC9_amended ([] : Registry Unit) "BBolt" "y" "widdly.db" ()
  exact ⟨rfl, (h.2.1 rfl).1, (h.2.1 rfl).2, h.2.2.2.1 rfl⟩

/-! ## Claim C10 -/

/-- C10: `key2File` maps the distinct keys `"a/b"` and `"a_b"` to the
same file name `"a_b"`, so the mapping is not injective; after a `Put`
of `"a/b"` on an empty flatFile store, a `Get` of `"a_b"` succeeds
(instead of `ErrNotFound`) and returns the tiddler stored for `"a/b"`;
a subsequent `Put` of `"a_b"` continues the same revision counter
(returning 3) and overwrites the stored text, as a `Get` of `"a/b"`
then shows. -/
theorem claimC10_key2File_collision :
    ("a/b" : String) ≠ "a_b" ∧
      key2File "a/b" = "a_b" ∧
      key2File "a_b" = "a_b" ∧
      errOf (flatGet flatAB1 "a_b") = none ∧
      (flatGet flatAB1 "a_b").toOption.map (fun t => titleOf (t.Js.getD []))
        = some "a/b" ∧
      (flatGet flatAB1 "a_b").toOption.map (fun t => textOf (t.Js.getD []))
        = some "hello" ∧
      (flatPut flatAB1 tUnder).1 = 3 ∧
      (flatGet flatAB2 "a/b").toOption.map (fun t => textOf (t.Js.getD []))
        = some "bye" := by
  exact ⟨by decide, rfl, rfl, rfl, rfl, rfl, rfl, rfl⟩

end Widdly
